import Mathlib

/-!
Verification of the storage protocol client and transfer engine of the
tlist repository against its specification.

Strings from the TypeScript source are modelled as lists of characters
(`Str`), so that prefix/suffix reasoning is available.  Each definition
below embeds one function of the source; the file and function embedded
are named in the comment above the definition.  Backend responses are
modelled structurally: the regex scanning plus XML-entity decoding of the
source is treated as tokenisation, and the parsers below receive the
decoded field values that this tokenisation extracts.
-/

/-- Character-list model of a JavaScript string. -/
abbrev Str := List Char

/-- Coerce a Lean string literal into the `Str` model. -/
def str (s : String) : Str := s.data

/-- Decimal rendering of a natural number, as in JS template interpolation. -/
def natStr (n : Nat) : Str := (toString n).data

/-- Model of the JS `s.replace(/^\//, "")`: drop one leading slash. -/
def stripLeadSlash : Str → Str
  | '/' :: rest => rest
  | s => s

/-- True when the string ends with the character '/'. -/
def endsSlash (s : Str) : Bool := s.getLast? = some '/'

/-- Model of the JS `s.replace(/\/$/, "")`: drop one trailing slash. -/
def stripTrailSlash (s : Str) : Str :=
  if endsSlash s then s.dropLast else s

/-- Model of `basePath.replace(/^\/|\/$/g, "")`: drop one leading and one
trailing slash (each regex alternative is anchored, so at most one
character is removed at either end). -/
def trimSlashes (s : Str) : Str := stripTrailSlash (stripLeadSlash s)

/-- Embeds `getFullPath` of src/app/lib/s3-client.ts (lines 79-83) and the
identical method of the WebDAV client (src/unnamed/part_003 lines 31-35). -/
def getFullPath (basePath path : Str) : Str :=
  let b := trimSlashes basePath
  let cleanPath := stripLeadSlash path
  if b = [] then cleanPath else b ++ ['/'] ++ cleanPath

/-- Prefix normalisation shared by both `listObjects` implementations:
a non-empty prefix that does not end in '/' gets one appended. -/
def normalizePrefix (p : Str) : Str :=
  if p ≠ [] ∧ endsSlash p = false then p ++ ['/'] else p

/-- The `ObjectEntry` produced by `list` of either protocol client
(`S3Object` in both src/app/lib/s3-client.ts and src/unnamed/part_003). -/
structure S3Object where
  key : Str
  name : Str
  size : Nat
  lastModified : Str
  isDirectory : Bool
  etag : Option Str
deriving DecidableEq, Repr

/-- The `ListObjectsResult` of both clients. -/
structure ListObjectsResult where
  objects : List S3Object
  prefixes : List Str
  isTruncated : Bool
  nextContinuationToken : Option Str
deriving DecidableEq, Repr

/-- The comparator passed to `Array.prototype.sort` by both parsers
(s3-client.ts lines 288-293, part_003 lines 194-199) read as a boolean
"less or equal" relation: `cmp(a,b) <= 0`.  `localeCompare` is modelled
as lexicographic comparison of the character lists. -/
def objectCmpLe (a b : S3Object) : Bool :=
  if a.isDirectory = b.isDirectory then decide (a.name ≤ b.name) else a.isDirectory

/-- One decoded `<Contents>` element of an S3 `ListBucketResult`
(fields as extracted by s3-client.ts lines 222-227). -/
structure ContentsEntry where
  key : Str
  size : Nat
  lastModified : Str
  etag : Str
deriving DecidableEq, Repr

/-- Decoded S3 list response body: `<Contents>` entries, the strings of
the `<CommonPrefixes><Prefix>` elements, the `<IsTruncated>true</IsTruncated>`
flag and the optional `<NextContinuationToken>`. -/
structure S3ListXml where
  contents : List ContentsEntry
  commonPrefixes : List Str
  isTruncatedFlag : Bool
  nextToken : Option Str
deriving DecidableEq, Repr

/-- Embeds the shared base-path stripping of the S3 parser
(s3-client.ts lines 230-232, 235-237, 259-261, 264-266):
`basePath && k.startsWith(basePath + "/") ? k.slice(basePath.length + 1) : k`. -/
def stripBase (basePath k : Str) : Str :=
  if basePath ≠ [] ∧ (basePath ++ ['/']).isPrefixOf k then k.drop (basePath.length + 1) else k

/-- Embeds the `<Contents>` branch of `parseListObjectsResponse`
(s3-client.ts lines 222-253); returns `none` when the entry is skipped
by the `if (name && !name.endsWith("/"))` guard. -/
def mkFileObject (basePath fullPrefix : Str) (c : ContentsEntry) : Option S3Object :=
  let displayKey := stripBase basePath c.key
  let relativePrefix := stripBase basePath fullPrefix
  let name := if relativePrefix.isPrefixOf displayKey
    then displayKey.drop relativePrefix.length else displayKey
  if name ≠ [] ∧ endsSlash name = false then
    some { key := displayKey, name := name, size := c.size,
           lastModified := c.lastModified, isDirectory := false, etag := some c.etag }
  else none

/-- Embeds the `<CommonPrefixes>` branch of `parseListObjectsResponse`
(s3-client.ts lines 255-282); returns `none` when skipped by `if (name)`. -/
def mkDirObject (basePath fullPrefix : Str) (p : Str) : Option S3Object :=
  let displayPrefix := stripBase basePath p
  let relativePrefix := stripBase basePath fullPrefix
  let name := if relativePrefix.isPrefixOf displayPrefix
    then stripTrailSlash (displayPrefix.drop relativePrefix.length)
    else stripTrailSlash displayPrefix
  if name ≠ [] then
    some { key := displayPrefix, name := name, size := 0,
           lastModified := [], isDirectory := true, etag := none }
  else none

/-- Embeds `S3Client.parseListObjectsResponse` (s3-client.ts lines 205-298):
file entries from `<Contents>`, directory entries from `<CommonPrefixes>`,
combined and sorted with the two-level comparator; `rawBasePath` is the
configured base path before trimming, as the method re-trims it itself. -/
def parseListObjectsResponse (rawBasePath fullPrefix : Str) (xml : S3ListXml) :
    ListObjectsResult :=
  let basePath := trimSlashes rawBasePath
  let fileObjs := xml.contents.filterMap (mkFileObject basePath fullPrefix)
  let dirObjs := xml.commonPrefixes.filterMap (mkDirObject basePath fullPrefix)
  let prefixes := xml.commonPrefixes.filterMap
    (fun p => (mkDirObject basePath fullPrefix p).map (fun _ => stripBase basePath p))
  { objects := (fileObjs ++ dirObjs).mergeSort objectCmpLe
  , prefixes := prefixes
  , isTruncated := xml.isTruncatedFlag
  , nextContinuationToken := xml.nextToken }

/-- Embeds `S3Client.listObjects` (s3-client.ts lines 159-203) at the level
of the parsed backend response: prefix normalisation, full-prefix
computation, then response parsing. -/
def s3ListObjects (rawBasePath p : Str) (xml : S3ListXml) : ListObjectsResult :=
  let normalizedPrefix := normalizePrefix p
  let fullPrefix := getFullPath rawBasePath normalizedPrefix
  parseListObjectsResponse rawBasePath fullPrefix xml

/-- One decoded `<response>` element of a WebDAV `multistatus` body, with
the fields extracted by `parsePropfindResponse` (part_003 lines 113-156):
the URL-decoded `href` path, the optional entity-decoded `displayname`,
whether `resourcetype` is present and contains "collection", the parsed
`getcontentlength` (0 when absent) and the decoded `getlastmodified`. -/
structure DavEntry where
  href : Str
  displayname : Option Str
  isCollection : Bool
  contentLength : Nat
  lastModified : Str
deriving DecidableEq, Repr

/-- Model of the regex replace with pattern "leading slash, then optionally
the base path followed by an optional slash" applied to the decoded href
(part_003 lines 136-141). -/
def stripBasePathOfHref (basePath h : Str) : Str :=
  let h1 := stripLeadSlash h
  if basePath.isPrefixOf h1 then stripLeadSlash (h1.drop basePath.length) else h1

/-- Last '/'-separated segment of a path, as `pathParts[pathParts.length - 1]`
after `split("/")` (part_003 lines 145-146). -/
def lastSegment (s : Str) : Str := (s.splitOn '/').getLastD []

/-- The display-name fallback derived from the href (part_003 lines 132-147). -/
def davHrefName (basePath : Str) (e : DavEntry) : Str :=
  let stripped := if basePath ≠ [] then stripBasePathOfHref basePath e.href
    else stripLeadSlash e.href
  lastSegment (stripTrailSlash stripped)

/-- Display name of a WebDAV entry: the `displayname` property when present
and non-empty, otherwise the name derived from the href
(part_003 lines 124-147). -/
def davDisplayName (basePath : Str) (e : DavEntry) : Str :=
  let fromElem := match e.displayname with
    | some d => d
    | none => []
  if fromElem ≠ [] then fromElem else davHrefName basePath e

/-- The "skip if this is the current path itself" test
(part_003 lines 158-163). -/
def isSelfEntry (fullPrefix : Str) (e : DavEntry) : Bool :=
  let decodedHref := stripLeadSlash e.href
  let expectedCurrent := stripLeadSlash fullPrefix
  decide (decodedHref = expectedCurrent) || decide (decodedHref = expectedCurrent ++ ['/'])

/-- Key construction of the WebDAV parser (part_003 lines 165-171): a file
under a non-empty listing prefix gets the prefix prepended, a directory
additionally receives a trailing slash, and at the root the display name
itself is the key. -/
def davKey (displayPrefix : Str) (isDir : Bool) (displayName : Str) : Str :=
  if displayPrefix ≠ [] ∧ isDir = false then displayPrefix ++ displayName
  else if displayPrefix ≠ [] ∧ isDir = true then displayPrefix ++ displayName ++ ['/']
  else displayName

/-- Embeds one iteration of the response loop of
`WebdevClient.parsePropfindResponse` (part_003 lines 113-191); `none` when
the entry is skipped (empty display name or self entry). -/
def mkDavObject (basePath fullPrefix displayPrefix : Str) (e : DavEntry) :
    Option S3Object :=
  let isDir := e.isCollection
  let displayName := davDisplayName basePath e
  if displayName = [] then none
  else if isSelfEntry fullPrefix e then none
  else some { key := davKey displayPrefix isDir displayName
            , name := displayName
            , size := if isDir then 0 else e.contentLength
            , lastModified := e.lastModified
            , isDirectory := isDir
            , etag := none }

/-- Embeds `WebdevClient.parsePropfindResponse` (part_003 lines 93-204):
per-entry conversion, the directory names pushed into `prefixes`, the final
two-level sort, and the constant pagination fields. -/
def parsePropfindResponse (rawBasePath fullPrefix displayPrefix : Str)
    (entries : List DavEntry) : ListObjectsResult :=
  let basePath := trimSlashes rawBasePath
  let objs := entries.filterMap (mkDavObject basePath fullPrefix displayPrefix)
  let prefixes := entries.filterMap (fun e =>
    match mkDavObject basePath fullPrefix displayPrefix e with
    | some o => if o.isDirectory then some o.name else none
    | none => none)
  { objects := objs.mergeSort objectCmpLe
  , prefixes := prefixes
  , isTruncated := false
  , nextContinuationToken := none }

/-- Embeds `WebdevClient.listObjects` (part_003 lines 46-91) at the level of
the parsed backend response.  The `delimiter`, `maxKeys` and
`continuationToken` parameters are accepted and ignored exactly as in the
source. -/
def webdavListObjects (rawBasePath p _delimiter : Str) (_maxKeys : Nat)
    (_continuationToken : Option Str) (entries : List DavEntry) : ListObjectsResult :=
  let normalizedPrefix := normalizePrefix p
  let fullPrefix := getFullPath rawBasePath normalizedPrefix
  parsePropfindResponse rawBasePath fullPrefix normalizedPrefix entries

/-! ## Folder operations (directory rename / move / recursive delete)

The rename handler (src/app/routes/api.files.$storageId.$.ts lines 502-570)
and the move handler (lines 573-644) share a directory body: list all
descendant keys, copy each to the new prefix, delete each old key, then a
best-effort delete of the old directory marker.  Every per-key call is
awaited inside one try block, so the first rejected promise aborts the
handler, which then returns an error response.  The interaction with the
backend is modelled as a trace of copy/delete events together with the
handler outcome; per-key success is supplied by oracles `copyOk` and
`deleteOk` standing for the backend's responses. -/

/-- A request issued to the storage backend by a folder operation. -/
inductive FolderEvent where
  | copy (src dest : Str)
  | del (key : Str)
deriving DecidableEq, Repr

/-- The destination key of a copied descendant
(`newPrefix + key.substring(oldPrefix.length)`, lines 541 and 615). -/
def newKeyFor (oldPrefix newPrefix k : Str) : Str :=
  newPrefix ++ k.drop oldPrefix.length

/-- The copy loop (lines 540-543 / 614-617): issues one copy per key until
the first failure, which aborts the loop.  Returns the issued events and
whether the loop ran to completion. -/
def copyPhase (copyOk : Str → Str → Bool) (oldPrefix newPrefix : Str) :
    List Str → List FolderEvent × Bool
  | [] => ([], true)
  | k :: ks =>
    if copyOk k (newKeyFor oldPrefix newPrefix k) then
      let r := copyPhase copyOk oldPrefix newPrefix ks
      (FolderEvent.copy k (newKeyFor oldPrefix newPrefix k) :: r.1, r.2)
    else ([FolderEvent.copy k (newKeyFor oldPrefix newPrefix k)], false)

/-- The delete loop (lines 546-548 / 620-622 / 777-779): one delete per key
until the first failure. -/
def deletePhase (deleteOk : Str → Bool) : List Str → List FolderEvent × Bool
  | [] => ([], true)
  | k :: ks =>
    if deleteOk k then
      let r := deletePhase deleteOk ks
      (FolderEvent.del k :: r.1, r.2)
    else ([FolderEvent.del k], false)

/-- Outcome of a multi-key folder operation: the backend events it issued
and either an error (the handler's catch branch, HTTP 500) or the count it
reports on success. -/
structure FolderOpResult where
  events : List FolderEvent
  outcome : Except Str Nat
deriving Repr

/-- Embeds the directory branch shared by the rename handler
(api.files.$storageId.$.ts lines 518-557) and the move handler
(lines 592-631): copy all listed keys, then delete them, then delete the
old folder marker ignoring its failure; on success report
`moved = keysToMove.length`, and on the first per-key failure the thrown
error reaches the catch branch. -/
def renameDirOp (keysToMove : List Str) (oldPrefix newPrefix : Str)
    (copyOk : Str → Str → Bool) (deleteOk : Str → Bool) : FolderOpResult :=
  let c := copyPhase copyOk oldPrefix newPrefix keysToMove
  if c.2 then
    let d := deletePhase deleteOk keysToMove
    if d.2 then
      ⟨c.1 ++ d.1 ++ [FolderEvent.del oldPrefix], Except.ok keysToMove.length⟩
    else ⟨c.1 ++ d.1, Except.error (str "Failed to rename")⟩
  else ⟨c.1, Except.error (str "Failed to rename")⟩

/-- Embeds the recursive-delete handler (api.files.$storageId.$.ts lines
741-794): delete every listed descendant key, then best-effort delete of
the folder's own marker; on success report `deleted = keysToDelete.length`. -/
def rmdirOp (keysToDelete : List Str) (path : Str) (deleteOk : Str → Bool) :
    FolderOpResult :=
  let d := deletePhase deleteOk keysToDelete
  if d.2 then
    ⟨d.1 ++ [FolderEvent.del (if endsSlash path then path else path ++ ['/'])],
     Except.ok keysToDelete.length⟩
  else ⟨d.1, Except.error (str "Failed to delete folder")⟩

/-! ## Upload strategy and multipart completion -/

/-- The configured chunk size in bytes
(src/app/routes/home.tsx line 1213: `chunkSizeMB * 1024 * 1024`). -/
def chunkSizeBytes (chunkSizeMB : Nat) : Nat := chunkSizeMB * 1024 * 1024

/-- How `handleUpload` transfers one file. -/
inductive UploadStrategy where
  | single
  | multipart (totalParts : Nat)
deriving DecidableEq, Repr

/-- Embeds `Math.ceil(file.size / chunkSize)` of `uploadMultipart`
(home.tsx line 1267), as exact natural-number ceiling division. -/
def totalPartsFor (size chunkSize : Nat) : Nat := (size + chunkSize - 1) / chunkSize

/-- Embeds the threshold decision of `handleUpload` (home.tsx lines
1220-1224) together with the part count computed by `uploadMultipart`:
`file.size >= CHUNK_SIZE` selects multipart, otherwise a single PUT. -/
def chooseUploadStrategy (size chunkSize : Nat) : UploadStrategy :=
  if size ≥ chunkSize then UploadStrategy.multipart (totalPartsFor size chunkSize)
  else UploadStrategy.single

/-- A completed part record `{partNumber, etag}`. -/
structure PartETag where
  partNumber : Nat
  etag : Str
deriving DecidableEq, Repr

/-- The comparator `(a, b) => a.partNumber - b.partNumber` of
`completeMultipartUpload` (s3-client.ts line 632) as "cmp ≤ 0". -/
def partLe (a b : PartETag) : Bool := a.partNumber ≤ b.partNumber

/-- The sort applied to the caller's parts before the XML body is built
(s3-client.ts line 632). -/
def sortedPartsOf (parts : List PartETag) : List PartETag :=
  parts.mergeSort partLe

/-- One `<Part>` element of the completion body (s3-client.ts line 634);
the ETag value is wrapped in double quotes. -/
def renderPart (p : PartETag) : Str :=
  str "<Part><PartNumber>" ++ natStr p.partNumber ++ str "</PartNumber><ETag>"
    ++ ['"'] ++ p.etag ++ ['"'] ++ str "</ETag></Part>"

/-- Embeds the XML body construction of `S3Client.completeMultipartUpload`
(s3-client.ts lines 631-637). -/
def completeMultipartBody (parts : List PartETag) : Str :=
  str "<CompleteMultipartUpload>"
    ++ ((sortedPartsOf parts).map renderPart).flatten
    ++ str "</CompleteMultipartUpload>"

/-! ## Multipart resume (uploadMultipart of home.tsx) -/

/-- Embeds `startPart = completedParts.length` on the resume branch
(home.tsx line 1287). -/
def resumeStartPart (completedParts : List PartETag) : Nat := completedParts.length

/-- Embeds the queue rebuild of home.tsx line 1354
(home.tsx line 1354): the part numbers re-queued after a resume. -/
def remainingPartsList (startPart totalParts : Nat) : List Nat :=
  List.range' (startPart + 1) (totalParts - startPart)

/-- The queue rebuilt when a persisted session is resumed: parts
`completedParts.length + 1 .. totalParts`. -/
def resumeRequeued (completedParts : List PartETag) (totalParts : Nat) : List Nat :=
  remainingPartsList (resumeStartPart completedParts) totalParts

/-- Stated from the specification, for comparison with `resumeRequeued`:
the part numbers in `1 .. totalParts` that do not occur among the persisted
completed parts. -/
def partsNotCompleted (completedParts : List PartETag) (totalParts : Nat) : List Nat :=
  (List.range' 1 totalParts).filter
    (fun p => !((completedParts.map PartETag.partNumber).contains p))

/-! ## WebDAV copy request -/

/-- The `WebdevConfig` of src/unnamed/part_003 (lines 1-6). -/
structure WebdevConfig where
  endpoint : Str
  username : Str
  password : Str
  basePath : Str
deriving DecidableEq, Repr

/-- Embeds `normalizeEndpoint` (part_003 lines 42-44): drop one trailing slash. -/
def normalizeEndpoint (endpoint : Str) : Str := stripTrailSlash endpoint

/-- Embeds `getBasicAuth` (part_003 lines 37-40); the base64 encoder `btoa` is an
injected primitive `b64`. -/
def basicAuthValue (b64 : Str → Str) (cfg : WebdevConfig) : Str :=
  str "Basic " ++ b64 (cfg.username ++ [':'] ++ cfg.password)

/-- An HTTP request issued by the WebDAV client. -/
structure DavRequest where
  url : Str
  method : Str
  headers : List (Str × Str)
deriving DecidableEq, Repr

/-- The `sourceUrl` computed by `WebdevClient.copyObject` (part_003 line
308). -/
def webdavSourceUrl (cfg : WebdevConfig) (sourceKey : Str) : Str :=
  normalizeEndpoint cfg.endpoint ++ ['/'] ++ getFullPath cfg.basePath sourceKey

/-- The `destUrl` computed by `WebdevClient.copyObject` (part_003 line
309). -/
def webdavDestUrl (cfg : WebdevConfig) (destKey : Str) : Str :=
  normalizeEndpoint cfg.endpoint ++ ['/'] ++ getFullPath cfg.basePath destKey

/-- Embeds the request built by `WebdevClient.copyObject` (part_003 lines
304-319): `fetch(destUrl, {method: "COPY", headers: {Authorization,
Destination: destUrl, Overwrite: "F"}})`.  The `sourceUrl` local of line
308 (`webdavSourceUrl`) is computed by the source but not used in the
request. -/
def webdavCopyRequest (b64 : Str → Str) (cfg : WebdevConfig)
    (_sourceKey destKey : Str) : DavRequest :=
  { url := webdavDestUrl cfg destKey
  , method := str "COPY"
  , headers := [ (str "Authorization", basicAuthValue b64 cfg)
               , (str "Destination", webdavDestUrl cfg destKey)
               , (str "Overwrite", str "F") ] }

/-! ## The SigV4 signer

`S3Client.signRequest` (s3-client.ts lines 85-157) and `getSignatureKey`
(lines 59-70).  The ambient crypto primitives (`crypto.subtle` HMAC-SHA256
and SHA-256) and `encodeURIComponent` are injected collaborators; byte
buffers are lists of naturals reduced mod 256. -/

/-- Injected cryptographic and encoding primitives of the signer. -/
structure CryptoEnv where
  hmac : List Nat → String → List Nat
  shaHex : String → String
  uriEncode : String → String

/-- The `S3Config` of src/app/lib/s3-client.ts (lines 1-8). -/
structure S3Config where
  endpoint : String
  region : String
  accessKeyId : String
  secretAccessKey : String
  bucket : String
  basePath : String

/-- One hexadecimal digit. -/
def hexDigit (n : Nat) : Char := "0123456789abcdef".data.getD n '0'

/-- Two-digit lowercase hex rendering of one byte (`toString(16).padStart(2,
"0")`, s3-client.ts lines 45-49). -/
def toHexByte (b : Nat) : String :=
  String.mk [hexDigit (b % 256 / 16), hexDigit (b % 16)]

/-- Embeds `toHex` of s3-client.ts lines 45-49 over the byte-list model. -/
def toHex (bs : List Nat) : String := String.join (bs.map toHexByte)

/-- The encoder `TextEncoder().encode` modelled as the code points of the string. -/
def strBytes (s : String) : List Nat := s.data.map Char.toNat

/-- Embeds `getSignatureKey` (s3-client.ts lines 59-70): the four chained
HMAC operations deriving the date/region/service-scoped signing key. -/
def getSignatureKey (env : CryptoEnv) (key dateStamp regionName serviceName : String) :
    List Nat :=
  let kDate := env.hmac (strBytes ("AWS4" ++ key)) dateStamp
  let kRegion := env.hmac kDate regionName
  let kService := env.hmac kRegion serviceName
  env.hmac kService "aws4_request"

/-- Embeds `new URL(endpoint).host`: the authority part following "://" up to the
next '/'. -/
def hostOf (endpoint : String) : String :=
  String.mk ((((endpoint.splitOn "://").getLastD endpoint).takeWhile (fun c => c ≠ '/')).data)

/-- Embeds `encodeS3Path` (s3-client.ts lines 52-57): encode each '/'-separated
segment with the injected `encodeURIComponent`. -/
def encodeS3Path (env : CryptoEnv) (path : String) : String :=
  String.intercalate "/" ((path.splitOn "/").map env.uriEncode)

/-- JS object-literal record: keys in first-insertion order, a later entry
with the same key overriding the value of an earlier one. -/
def recordKeys (r : List (String × String)) : List String :=
  (r.map Prod.fst).eraseDups

/-- Value lookup in the record model: the last write wins, "" if absent. -/
def recordGet (r : List (String × String)) (k : String) : String :=
  ((r.reverse.find? (fun p => p.1 = k)).map Prod.snd).getD ""

/-- Error taxonomy of the signer required by the specification; the source
has no throwing path, so no constructor is ever produced. -/
inductive SignError where
  | configError (msg : String)
deriving DecidableEq, Repr

/-- Embeds `S3Client.signRequest` (s3-client.ts lines 85-157).  The wall
clock is injected as the precomputed `amzDate` string; `dateStamp` is its
first eight characters (line 97).  The method validates nothing and has no
failure path, so the result is always `Except.ok`. -/
def signRequest (env : CryptoEnv) (config : S3Config) (method path : String)
    (queryParams headers : List (String × String)) (payload : String)
    (useUnsignedPayload : Bool) (amzDate : String) :
    Except SignError (List (String × String)) :=
  let host := hostOf config.endpoint
  let dateStamp := (amzDate.data.take 8).asString
  let payloadHash := if useUnsignedPayload then "UNSIGNED-PAYLOAD" else env.shaHex payload
  let headersToSign : List (String × String) :=
    [("host", host), ("x-amz-content-sha256", payloadHash), ("x-amz-date", amzDate)]
      ++ headers
  let sortedHeaderKeys := (recordKeys headersToSign).mergeSort (fun a b => decide (a ≤ b))
  let canonicalHeaders := String.intercalate "\n"
    (sortedHeaderKeys.map (fun k => k.toLower ++ ":" ++ (recordGet headersToSign k).trim))
  let signedHeadersStr := String.intercalate ";" (sortedHeaderKeys.map String.toLower)
  let sortedQueryKeys := (recordKeys queryParams).mergeSort (fun a b => decide (a ≤ b))
  let canonicalQueryString := String.intercalate "&"
    (sortedQueryKeys.map (fun k => env.uriEncode k ++ "=" ++ env.uriEncode (recordGet queryParams k)))
  let rawCanonicalUri := if path.startsWith "/" then path else "/" ++ path
  let canonicalUri := encodeS3Path env rawCanonicalUri
  let canonicalRequest := String.intercalate "\n"
    [method, canonicalUri, canonicalQueryString, canonicalHeaders ++ "\n",
     signedHeadersStr, payloadHash]
  let credentialScope := dateStamp ++ "/" ++ config.region ++ "/s3/aws4_request"
  let stringToSign := String.intercalate "\n"
    ["AWS4-HMAC-SHA256", amzDate, credentialScope, env.shaHex canonicalRequest]
  let signingKey := getSignatureKey env config.secretAccessKey dateStamp config.region "s3"
  let signature := toHex (env.hmac signingKey stringToSign)
  let authorization := "AWS4-HMAC-SHA256 Credential=" ++ config.accessKeyId ++ "/"
    ++ credentialScope ++ ", SignedHeaders=" ++ signedHeadersStr
    ++ ", Signature=" ++ signature
  Except.ok
    ([("x-amz-content-sha256", payloadHash), ("x-amz-date", amzDate)]
      ++ headers ++ [("Authorization", authorization)])

/-- Whether a returned header set carries an Authorization entry. -/
def hasAuthorizationHeader (hs : List (String × String)) : Bool :=
  hs.any (fun h => h.1 = "Authorization")

/-! ## Key well-formedness hypotheses for backend responses

An S3 `ListObjectsV2` response is well formed for the client when object
keys and common prefixes do not start with '/' and do not continue the
configured base path with an empty path segment; common prefixes end with
the '/' delimiter the client requested. -/

/-- A backend-supplied S3 key or common prefix that the base-path stripping
of the parser handles without producing a leading slash. -/
def s3KeyWellFormed (basePath k : Str) : Prop :=
  k.head? ≠ some '/' ∧ (basePath ≠ [] → (basePath ++ ['/', '/']).isPrefixOf k = false)

instance (basePath k : Str) : Decidable (s3KeyWellFormed basePath k) := by
  unfold s3KeyWellFormed
  infer_instance

/-! ## Helper lemmas -/

theorem objectCmpLe_trans (a b c : S3Object) (h1 : objectCmpLe a b = true)
    (h2 : objectCmpLe b c = true) : objectCmpLe a c = true := by
  cases ha : a.isDirectory <;> cases hb : b.isDirectory <;> cases hc : c.isDirectory <;>
    simp_all [objectCmpLe] <;> exact le_trans h1 h2

theorem objectCmpLe_total (a b : S3Object) : (objectCmpLe a b || objectCmpLe b a) = true := by
  cases ha : a.isDirectory <;> cases hb : b.isDirectory <;>
    simp_all [objectCmpLe] <;> exact le_total a.name b.name

theorem objectCmpLe_spec {a b : S3Object} (h : objectCmpLe a b = true) :
    (a.isDirectory = false → b.isDirectory = false) ∧
    (a.isDirectory = b.isDirectory → a.name ≤ b.name) := by
  cases ha : a.isDirectory <;> cases hb : b.isDirectory <;> simp_all [objectCmpLe]

theorem copyPhase_ok_iff (copyOk : Str → Str → Bool) (oldPrefix newPrefix : Str)
    (ks : List Str) : (copyPhase copyOk oldPrefix newPrefix ks).2 = true ↔
      ∀ k ∈ ks, copyOk k (newKeyFor oldPrefix newPrefix k) = true := by
  induction ks with
  | nil => simp [copyPhase]
  | cons k ks ih =>
    by_cases h : copyOk k (newKeyFor oldPrefix newPrefix k) = true
    · simp [copyPhase, h, ih]
    · simp [copyPhase, h]

theorem deletePhase_ok_iff (deleteOk : Str → Bool) (ks : List Str) :
    (deletePhase deleteOk ks).2 = true ↔ ∀ k ∈ ks, deleteOk k = true := by
  induction ks with
  | nil => simp [deletePhase]
  | cons k ks ih =>
    by_cases h : deleteOk k = true
    · simp [deletePhase, h, ih]
    · simp [deletePhase, h]

theorem copyPhase_events_copy (copyOk : Str → Str → Bool) (oldPrefix newPrefix : Str)
    (ks : List Str) : ∀ e ∈ (copyPhase copyOk oldPrefix newPrefix ks).1,
      ∃ s d, e = FolderEvent.copy s d := by
  induction ks with
  | nil => simp [copyPhase]
  | cons k ks ih =>
    by_cases h : copyOk k (newKeyFor oldPrefix newPrefix k) = true
    · intro e he
      simp only [copyPhase, h, if_true, List.mem_cons] at he
      rcases he with h0 | h0
      · exact ⟨_, _, h0⟩
      · exact ih e h0
    · intro e he
      simp [copyPhase, h] at he
      exact ⟨_, _, he⟩

theorem deletePhase_events_del (deleteOk : Str → Bool) (ks : List Str) :
    ∀ e ∈ (deletePhase deleteOk ks).1, ∃ kk, e = FolderEvent.del kk := by
  induction ks with
  | nil => simp [deletePhase]
  | cons k ks ih =>
    by_cases h : deleteOk k = true
    · intro e he
      simp only [deletePhase, h, if_true, List.mem_cons] at he
      rcases he with h0 | h0
      · exact ⟨_, h0⟩
      · exact ih e h0
    · intro e he
      simp [deletePhase, h] at he
      exact ⟨_, he⟩

theorem copies_before_deletes_aux (L A B : List FolderEvent) (hL : L = A ++ B)
    (hA : ∀ e ∈ A, ∃ s d, e = FolderEvent.copy s d)
    (hB : ∀ e ∈ B, ∃ kk, e = FolderEvent.del kk)
    (i j : Nat) (hi : i < L.length) (hj : j < L.length) (s d kk : Str)
    (h1 : L.get ⟨i, hi⟩ = FolderEvent.copy s d)
    (h2 : L.get ⟨j, hj⟩ = FolderEvent.del kk) : i < j := by
  subst hL
  rw [List.get_eq_getElem] at h1 h2
  have hiA : i < A.length := by
    by_contra hcon
    push_neg at hcon
    have hib : i - A.length < B.length := by
      rw [List.length_append] at hi; omega
    have he : (A ++ B)[i] = B[i - A.length] := List.getElem_append_right hcon
    obtain ⟨kk2, hk2⟩ := hB _ (List.getElem_mem hib)
    rw [← he, h1] at hk2
    exact FolderEvent.noConfusion hk2
  have hjB : A.length ≤ j := by
    by_contra hcon
    push_neg at hcon
    have he : (A ++ B)[j] = A[j] := List.getElem_append_left hcon
    obtain ⟨s2, d2, hs2⟩ := hA _ (List.getElem_mem hcon)
    rw [← he, h2] at hs2
    exact FolderEvent.noConfusion hs2
  omega

theorem getLast?_drop_of_ne_nil (l : Str) (n : Nat) (h : l.drop n ≠ []) :
    l.getLast? = (l.drop n).getLast? := by
  conv_lhs => rw [← List.take_append_drop n l]
  rw [List.getLast?_append]
  cases hd : (l.drop n).getLast? with
  | none => exact absurd (List.getLast?_eq_none_iff.mp hd) h
  | some x => rfl

theorem stripTrailSlash_ne_nil {s : Str} (h : stripTrailSlash s ≠ []) : s ≠ [] := by
  intro hs
  subst hs
  simp [stripTrailSlash, endsSlash] at h

/-! ## Claim theorems -/

/-- C10: for every prefix, delimiter, maxKeys value and continuation token,
the WebDAV list operation returns a ListResult with isTruncated = false and
no continuation token, so a caller following the pagination protocol never
issues a second page request against a WebDAV backend. -/
theorem webdavList_never_truncated (rawBasePath p delimiter : Str) (maxKeys : Nat)
    (token : Option Str) (entries : List DavEntry) :
    (webdavListObjects rawBasePath p delimiter maxKeys token entries).isTruncated = false ∧
    (webdavListObjects rawBasePath p delimiter maxKeys token entries).nextContinuationToken
      = none :=
  ⟨rfl, rfl⟩

/-- C9: for every parsed list response of either protocol client, the
returned objects array places every directory entry before every file
entry, and within the directory group and within the file group entries
are ordered by name (localeCompare modelled as lexicographic order). -/
theorem listObjects_sorted_dirsFirst (rawBasePath fullPrefix displayPrefix : Str)
    (xml : S3ListXml) (entries : List DavEntry) :
    ((parseListObjectsResponse rawBasePath fullPrefix xml).objects.Pairwise
      (fun a b => (a.isDirectory = false → b.isDirectory = false) ∧
        (a.isDirectory = b.isDirectory → a.name ≤ b.name))) ∧
    ((parsePropfindResponse rawBasePath fullPrefix displayPrefix entries).objects.Pairwise
      (fun a b => (a.isDirectory = false → b.isDirectory = false) ∧
        (a.isDirectory = b.isDirectory → a.name ≤ b.name))) := by
  constructor <;>
    exact (List.sorted_mergeSort objectCmpLe_trans objectCmpLe_total _).imp
      (fun h => objectCmpLe_spec h)

/-- C4: for every list of parts passed to completeMultipartUpload, in any
order and with any part numbers, the XML body lists the parts sorted
ascending by partNumber, the emitted sequence is a permutation of the
input, and each ETag is wrapped in double quotes. -/
theorem completeMultipart_sorted_quoted (parts : List PartETag) :
    (sortedPartsOf parts).Pairwise (fun a b => a.partNumber ≤ b.partNumber) ∧
    (sortedPartsOf parts).Perm parts ∧
    completeMultipartBody parts =
      str "<CompleteMultipartUpload>" ++ ((sortedPartsOf parts).map renderPart).flatten
        ++ str "</CompleteMultipartUpload>" ∧
    ∀ p ∈ sortedPartsOf parts, (['"'] ++ p.etag ++ ['"']) <:+: renderPart p := by
  refine ⟨?_, List.mergeSort_perm parts partLe, rfl, ?_⟩
  · have htrans : ∀ a b c : PartETag, partLe a b = true → partLe b c = true →
        partLe a c = true := by
      intro a b c h1 h2
      simp only [partLe, decide_eq_true_eq] at h1 h2 ⊢
      omega
    have htotal : ∀ a b : PartETag, (partLe a b || partLe b a) = true := by
      intro a b
      simp only [partLe, Bool.or_eq_true, decide_eq_true_eq]
      omega
    exact (List.sorted_mergeSort htrans htotal parts).imp
      (fun h => by simpa [partLe] using h)
  · intro p _
    exact ⟨str "<Part><PartNumber>" ++ natStr p.partNumber ++ str "</PartNumber><ETag>",
           str "</ETag></Part>", by simp [renderPart]⟩

/-- C4 witness: the quoting clause of the theorem applied to the concrete
one-part list. -/
theorem completeMultipart_sorted_quoted_witness :
    (['"'] ++ str "abc" ++ ['"']) <:+: renderPart ⟨2, str "abc"⟩ :=
  (completeMultipart_sorted_quoted [⟨2, str "abc"⟩]).2.2.2 ⟨2, str "abc"⟩
    (((List.mergeSort_perm [⟨2, str "abc"⟩] partLe).mem_iff).mpr (by decide))

/-- C2 counterexample: a file whose size is exactly the configured chunk
size (50 MB here) is transferred with multipart (one part), not with the
single-part upload the claim states. -/
theorem uploadThreshold_boundary_counterexample :
    chooseUploadStrategy (chunkSizeBytes 50) (chunkSizeBytes 50)
        = UploadStrategy.multipart 1 ∧
    chooseUploadStrategy (chunkSizeBytes 50) (chunkSizeBytes 50)
        ≠ UploadStrategy.single := by
  constructor
  · rfl
  · decide

/-- C2 amended: files at or above the configured chunk size use multipart
with exactly ceil(size/chunkSize) parts — so a file exactly at the
threshold uses multipart with one part, and a file one byte larger uses
multipart with two parts — while files strictly below the threshold use a
single put. -/
theorem uploadThreshold_policy (size c : Nat) (hc : 0 < c) :
    (size < c → chooseUploadStrategy size c = UploadStrategy.single) ∧
    (c ≤ size → chooseUploadStrategy size c
        = UploadStrategy.multipart (totalPartsFor size c)) ∧
    chooseUploadStrategy c c = UploadStrategy.multipart 1 ∧
    chooseUploadStrategy (c + 1) c = UploadStrategy.multipart 2 := by
  refine ⟨?_, ?_, ?_, ?_⟩
  · intro h
    simp [chooseUploadStrategy, Nat.not_le.mpr h]
  · intro h
    simp [chooseUploadStrategy, h]
  · have h1 : totalPartsFor c c = 1 := by
      have he : c + c - 1 = c * 1 + (c - 1) := by omega
      simp only [totalPartsFor, he, Nat.mul_add_div hc]
      simp [Nat.div_eq_of_lt (by omega : c - 1 < c)]
    simp [chooseUploadStrategy, h1]
  · have h2 : totalPartsFor (c + 1) c = 2 := by
      have he : c + 1 + c - 1 = c * 2 + 0 := by omega
      simp only [totalPartsFor, he, Nat.mul_add_div hc, Nat.zero_div]
    simp [chooseUploadStrategy, h2, Nat.le_add_right]

/-- C2 witness: the amended policy applied at concrete sizes: 3 bytes
below a 50 MB chunk size uses a single put, and a 119 MB file with a
50 MB chunk size uses multipart with ceil(119/50) = 3 parts. -/
theorem uploadThreshold_policy_witness :
    chooseUploadStrategy 3 (chunkSizeBytes 50) = UploadStrategy.single ∧
    chooseUploadStrategy 124780544 52428800 = UploadStrategy.multipart 3 := by
  constructor
  · exact (uploadThreshold_policy 3 (chunkSizeBytes 50) (by decide)).1 (by decide)
  · exact ((uploadThreshold_policy 124780544 52428800 (by decide)).2.1
      (by decide)).trans (by rfl)

/-- C5: the WebDAV copy operation builds both URLs but addresses the COPY
request to the destination URL, not to the source resource as the claim
(and the unused sourceUrl local of the source) require; evaluated at
sourceKey "a.txt", destKey "b.txt" against endpoint
https://dav.example.com: the request goes to .../b.txt while the source
resource is .../a.txt.  The Destination and Overwrite: F headers are
present as claimed. -/
theorem webdavCopy_requestTarget :
    (webdavCopyRequest id ⟨str "https://dav.example.com", str "u", str "p", []⟩
        (str "a.txt") (str "b.txt")).url
      = webdavDestUrl ⟨str "https://dav.example.com", str "u", str "p", []⟩ (str "b.txt") ∧
    (webdavCopyRequest id ⟨str "https://dav.example.com", str "u", str "p", []⟩
        (str "a.txt") (str "b.txt")).url
      ≠ webdavSourceUrl ⟨str "https://dav.example.com", str "u", str "p", []⟩ (str "a.txt") ∧
    (str "Destination",
      webdavDestUrl ⟨str "https://dav.example.com", str "u", str "p", []⟩ (str "b.txt"))
      ∈ (webdavCopyRequest id ⟨str "https://dav.example.com", str "u", str "p", []⟩
          (str "a.txt") (str "b.txt")).headers ∧
    (str "Overwrite", str "F")
      ∈ (webdavCopyRequest id ⟨str "https://dav.example.com", str "u", str "p", []⟩
          (str "a.txt") (str "b.txt")).headers := by
  refine ⟨rfl, by decide, by decide, by decide⟩

/-- C6 counterexample: with an empty configured secret the signer does not
fail fast with a configuration error: it silently returns a signed header
set (the signature is derived from the empty secret). -/
theorem signRequest_emptySecret_counterexample :
    (signRequest ⟨fun k m => k ++ strBytes m, fun s => s, fun s => s⟩
        ⟨"https://s3.example.com", "us-east-1", "AK", "", "bucket", ""⟩
        "GET" "/bucket" [] [] "" true "20250101T000000Z").isOk = true ∧
    (S3Config.mk "https://s3.example.com" "us-east-1" "AK" "" "bucket" "").secretAccessKey
      = "" :=
  ⟨rfl, rfl⟩

/-- C6 amended: signing never fails for any request input and any
credentials, the empty secret included; the signer always returns a header
set carrying an Authorization entry, silently deriving the signature from
whatever secret is configured. -/
theorem signRequest_never_fails (env : CryptoEnv) (config : S3Config)
    (method path : String) (queryParams headers : List (String × String))
    (payload : String) (useUnsignedPayload : Bool) (amzDate : String) :
    ∃ hs, signRequest env config method path queryParams headers payload
        useUnsignedPayload amzDate = Except.ok hs ∧ hasAuthorizationHeader hs = true := by
  refine ⟨_, rfl, ?_⟩
  simp [hasAuthorizationHeader, List.any_append]

/-- C8 counterexample: a persisted session for a 5-part upload whose
completed parts are 1 and 3 re-queues parts 3, 4, 5 — re-uploading the
already completed part 3 and never re-queuing the missing part 2 — because
the resume branch derives the restart point from the count of completed
parts alone. -/
theorem resume_requeue_counterexample :
    resumeRequeued [⟨1, str "e1"⟩, ⟨3, str "e3"⟩] 5 = [3, 4, 5] ∧
    partsNotCompleted [⟨1, str "e1"⟩, ⟨3, str "e3"⟩] 5 = [2, 4, 5] ∧
    resumeRequeued [⟨1, str "e1"⟩, ⟨3, str "e3"⟩] 5
      ≠ partsNotCompleted [⟨1, str "e1"⟩, ⟨3, str "e3"⟩] 5 ∧
    3 ∈ resumeRequeued [⟨1, str "e1"⟩, ⟨3, str "e3"⟩] 5 ∧
    3 ∈ [PartETag.mk 1 (str "e1"), PartETag.mk 3 (str "e3")].map PartETag.partNumber := by
  refine ⟨by decide, by decide, by decide, by decide, by decide⟩

/-- C8 amended: when the persisted completed parts are exactly the
contiguous run 1..k (the situation the persistence loop produces when no
parts complete out of order), resuming re-queues exactly the parts not yet
completed, namely k+1..totalParts. -/
theorem resume_requeue_contiguous (completedParts : List PartETag) (totalParts : Nat)
    (hcontig : completedParts.map PartETag.partNumber
      = List.range' 1 completedParts.length)
    (hle : completedParts.length ≤ totalParts) :
    resumeRequeued completedParts totalParts
      = partsNotCompleted completedParts totalParts := by
  have hr := List.range'_append 1 completedParts.length
    (totalParts - completedParts.length) 1
  simp only [one_mul] at hr
  have hsplit : List.range' 1 totalParts
      = List.range' 1 completedParts.length
        ++ List.range' (1 + completedParts.length) (totalParts - completedParts.length) := by
    rw [hr]
    congr 1
    omega
  rw [partsNotCompleted, hsplit, List.filter_append]
  have hfirst : (List.range' 1 completedParts.length).filter
      (fun p => !((completedParts.map PartETag.partNumber).contains p)) = [] := by
    rw [List.filter_eq_nil_iff]
    intro a ha
    rw [hcontig]
    have hc : (List.range' 1 completedParts.length).contains a = true := by
      simp [List.contains, List.elem_eq_mem, ha]
    rw [hc]
    simp
  have hsecond : (List.range' (1 + completedParts.length)
        (totalParts - completedParts.length)).filter
      (fun p => !((completedParts.map PartETag.partNumber).contains p))
      = List.range' (1 + completedParts.length) (totalParts - completedParts.length) := by
    rw [List.filter_eq_self]
    intro a ha
    rw [hcontig]
    have hnot : a ∉ List.range' 1 completedParts.length := by
      intro hmem
      rw [List.mem_range'] at ha hmem
      obtain ⟨i, hi, hai⟩ := ha
      obtain ⟨j, hj, haj⟩ := hmem
      omega
    simp [List.contains, List.elem_eq_mem, hnot]
  rw [hfirst, hsecond, List.nil_append]
  simp only [resumeRequeued, remainingPartsList, resumeStartPart]
  congr 1
  omega

/-- C8 witness: the amended statement applied to a session with parts 1
and 2 of 5 completed: only parts 3, 4, 5 are re-queued (scenario D). -/
theorem resume_requeue_contiguous_witness :
    resumeRequeued [⟨1, str "e1"⟩, ⟨2, str "e2"⟩] 5 = [3, 4, 5] ∧
    partsNotCompleted [⟨1, str "e1"⟩, ⟨2, str "e2"⟩] 5 = [3, 4, 5] := by
  have h := resume_requeue_contiguous [⟨1, str "e1"⟩, ⟨2, str "e2"⟩] 5
    (by decide) (by decide)
  exact ⟨by decide, h ▸ (by decide : resumeRequeued [⟨1, str "e1"⟩, ⟨2, str "e2"⟩] 5 = [3, 4, 5])⟩

/-- C1 counterexample: renaming a directory with two descendant keys where
the first copy fails does not count the failure and continue: the handler
issues only the first copy, never touches the second key nor any delete,
and aborts with an error response instead of returning an aggregate
movedOrDeletedCount/failedCount result. -/
theorem renameDir_aborts_counterexample :
    (renameDirOp [str "docs/a.txt", str "docs/b.txt"] (str "docs/") (str "archive/")
        (fun src _ => src != str "docs/a.txt") (fun _ => true)).events
      = [FolderEvent.copy (str "docs/a.txt") (str "archive/a.txt")] ∧
    (renameDirOp [str "docs/a.txt", str "docs/b.txt"] (str "docs/") (str "archive/")
        (fun src _ => src != str "docs/a.txt") (fun _ => true)).outcome.isOk = false := by
  refine ⟨rfl, rfl⟩

/-- C1 amended: the multi-key folder operations abort on the first per-key
failure: the directory rename/move body and the recursive delete handler
return a success count (the number of listed keys) exactly when every
per-key copy and delete succeeds, and otherwise propagate an error without
any aggregate failure count. -/
theorem folderOps_firstFailure_aborts (keys : List Str) (oldPrefix newPrefix path : Str)
    (copyOk : Str → Str → Bool) (deleteOk : Str → Bool) (n m : Nat) :
    ((renameDirOp keys oldPrefix newPrefix copyOk deleteOk).outcome = Except.ok n ↔
      n = keys.length ∧
        ∀ k ∈ keys, copyOk k (newKeyFor oldPrefix newPrefix k) = true ∧ deleteOk k = true) ∧
    ((rmdirOp keys path deleteOk).outcome = Except.ok m ↔
      m = keys.length ∧ ∀ k ∈ keys, deleteOk k = true) := by
  constructor
  · constructor
    · intro h
      by_cases hc : (copyPhase copyOk oldPrefix newPrefix keys).2 = true
      · by_cases hd : (deletePhase deleteOk keys).2 = true
        · simp only [renameDirOp, hc, hd, if_true] at h
          refine ⟨by
            have := h
            simpa using this.symm, ?_⟩
          intro k hk
          exact ⟨(copyPhase_ok_iff copyOk oldPrefix newPrefix keys).mp hc k hk,
            (deletePhase_ok_iff deleteOk keys).mp hd k hk⟩
        · simp [renameDirOp, hc, hd] at h
      · simp [renameDirOp, hc] at h
    · rintro ⟨hn, hall⟩
      have hc : (copyPhase copyOk oldPrefix newPrefix keys).2 = true :=
        (copyPhase_ok_iff copyOk oldPrefix newPrefix keys).mpr
          (fun k hk => (hall k hk).1)
      have hd : (deletePhase deleteOk keys).2 = true :=
        (deletePhase_ok_iff deleteOk keys).mpr (fun k hk => (hall k hk).2)
      simp [renameDirOp, hc, hd, hn]
  · constructor
    · intro h
      by_cases hd : (deletePhase deleteOk keys).2 = true
      · simp only [rmdirOp, hd, if_true] at h
        refine ⟨by
          have := h
          simpa using this.symm, ?_⟩
        exact (deletePhase_ok_iff deleteOk keys).mp hd
      · simp [rmdirOp, hd] at h
    · rintro ⟨hm, hall⟩
      have hd : (deletePhase deleteOk keys).2 = true :=
        (deletePhase_ok_iff deleteOk keys).mpr hall
      simp [rmdirOp, hd, hm]

/-- C1 witness: the amended statement applied to a one-key directory whose
copy and delete both succeed: both operations report a count of 1. -/
theorem folderOps_firstFailure_aborts_witness :
    (renameDirOp [str "docs/a.txt"] (str "docs/") (str "archive/")
        (fun _ _ => true) (fun _ => true)).outcome = Except.ok 1 ∧
    (rmdirOp [str "docs/a.txt"] (str "docs") (fun _ => true)).outcome = Except.ok 1 := by
  have h := folderOps_firstFailure_aborts [str "docs/a.txt"] (str "docs/")
    (str "archive/") (str "docs") (fun _ _ => true) (fun _ => true) 1 1
  exact ⟨h.1.mpr ⟨by decide, by decide⟩, h.2.mpr ⟨by decide, by decide⟩⟩

/-- C3: in a directory rename or move over any set of descendant keys and
any pattern of per-key success, every copy event in the issued request
trace precedes every delete event (source-key deletes and the marker
delete alike): copies are never interleaved with deletes, so a failure at
any intermediate step happens before any source object has been deleted
that was not already both copied and scheduled for deletion. -/
theorem renameDir_copies_before_deletes (keys : List Str) (oldPrefix newPrefix : Str)
    (copyOk : Str → Str → Bool) (deleteOk : Str → Bool) (i j : Nat)
    (hi : i < (renameDirOp keys oldPrefix newPrefix copyOk deleteOk).events.length)
    (hj : j < (renameDirOp keys oldPrefix newPrefix copyOk deleteOk).events.length)
    (s d kk : Str)
    (h1 : (renameDirOp keys oldPrefix newPrefix copyOk deleteOk).events.get ⟨i, hi⟩
      = FolderEvent.copy s d)
    (h2 : (renameDirOp keys oldPrefix newPrefix copyOk deleteOk).events.get ⟨j, hj⟩
      = FolderEvent.del kk) : i < j := by
  by_cases hc : (copyPhase copyOk oldPrefix newPrefix keys).2 = true
  · by_cases hd : (deletePhase deleteOk keys).2 = true
    · refine copies_before_deletes_aux _ (copyPhase copyOk oldPrefix newPrefix keys).1
        ((deletePhase deleteOk keys).1 ++ [FolderEvent.del oldPrefix])
        (by simp [renameDirOp, hc, hd, List.append_assoc])
        (copyPhase_events_copy copyOk oldPrefix newPrefix keys) ?_ i j hi hj s d kk h1 h2
      intro e he
      rcases List.mem_append.mp he with h0 | h0
      · exact deletePhase_events_del deleteOk keys e h0
      · exact ⟨oldPrefix, List.mem_singleton.mp h0⟩
    · exact copies_before_deletes_aux _ (copyPhase copyOk oldPrefix newPrefix keys).1
        (deletePhase deleteOk keys).1 (by simp [renameDirOp, hc, hd])
        (copyPhase_events_copy copyOk oldPrefix newPrefix keys)
        (deletePhase_events_del deleteOk keys) i j hi hj s d kk h1 h2
  · exact copies_before_deletes_aux _ (copyPhase copyOk oldPrefix newPrefix keys).1 []
      (by simp [renameDirOp, hc])
      (copyPhase_events_copy copyOk oldPrefix newPrefix keys)
      (by intro e he; exact absurd he (List.not_mem_nil e)) i j hi hj s d kk h1 h2

/-- C3 witness: the ordering theorem applied to a concrete one-key rename
whose trace is one copy followed by two deletes: the copy at index 0
precedes the delete at index 1. -/
theorem renameDir_copies_before_deletes_witness : (0 : Nat) < 1 :=
  renameDir_copies_before_deletes [str "d/x"] (str "d/") (str "e/")
    (fun _ _ => true) (fun _ => true) 0 1 (by decide) (by decide)
    (str "d/x") (str "e/x") (str "d/x") rfl rfl

theorem endsSlash_true_iff (s : Str) : endsSlash s = true ↔ s.getLast? = some '/' := by
  simp [endsSlash]

theorem endsSlash_false_iff (s : Str) : endsSlash s = false ↔ s.getLast? ≠ some '/' := by
  simp [endsSlash]

theorem drop_ne_nil_ne_nil {l : Str} {n : Nat} (h : l.drop n ≠ []) : l ≠ [] := by
  intro hl
  subst hl
  simp at h

theorem stripBase_head (bp k : Str) (hwf : s3KeyWellFormed bp k) :
    (stripBase bp k).head? ≠ some '/' := by
  unfold stripBase
  split
  next h =>
    obtain ⟨hbp, hpre⟩ := h
    obtain ⟨t, ht⟩ := List.isPrefixOf_iff_prefix.mp hpre
    intro hhead
    have hlen : bp.length + 1 = (bp ++ ['/']).length := by simp
    have hdrop : k.drop (bp.length + 1) = t := by
      rw [← ht, hlen, List.drop_left]
    rw [hdrop] at hhead
    cases t with
    | nil => simp at hhead
    | cons c t2 =>
      simp at hhead
      subst hhead
      have hpp : (bp ++ ['/', '/']).isPrefixOf k = true :=
        List.isPrefixOf_iff_prefix.mpr ⟨t2, by rw [← ht]; simp⟩
      rw [hwf.2 hbp] at hpp
      exact Bool.noConfusion hpp
  next h => exact hwf.1

theorem endsSlash_stripBase (bp p : Str) (hp : endsSlash p = true)
    (hne : stripBase bp p ≠ []) : endsSlash (stripBase bp p) = true := by
  unfold stripBase at hne ⊢
  split
  next h =>
    rw [if_pos h] at hne
    rw [endsSlash_true_iff]
    rw [← getLast?_drop_of_ne_nil p (bp.length + 1) hne]
    exact (endsSlash_true_iff p).mp hp
  next h => exact hp

theorem mkFileObject_spec {bp fp : Str} {c : ContentsEntry} {o : S3Object}
    (h : mkFileObject bp fp c = some o) :
    o.isDirectory = false ∧ o.key = stripBase bp c.key ∧ endsSlash o.key = false := by
  simp only [mkFileObject] at h
  split at h
  next hpre =>
    split at h
    next hcond =>
      rw [Option.some_inj] at h
      subst h
      refine ⟨rfl, rfl, ?_⟩
      rw [endsSlash_false_iff]
      rw [getLast?_drop_of_ne_nil (stripBase bp c.key) (stripBase bp fp).length hcond.1]
      exact (endsSlash_false_iff _).mp hcond.2
    next hcond => simp at h
  next hpre =>
    split at h
    next hcond =>
      rw [Option.some_inj] at h
      subst h
      exact ⟨rfl, rfl, hcond.2⟩
    next hcond => simp at h

theorem mkDirObject_spec {bp fp p : Str} {o : S3Object}
    (h : mkDirObject bp fp p = some o) (hp : endsSlash p = true) :
    o.isDirectory = true ∧ o.key = stripBase bp p ∧ endsSlash o.key = true := by
  simp only [mkDirObject] at h
  split at h
  next hpre =>
    split at h
    next hcond =>
      rw [Option.some_inj] at h
      subst h
      exact ⟨rfl, rfl, endsSlash_stripBase bp p hp
        (drop_ne_nil_ne_nil (stripTrailSlash_ne_nil hcond))⟩
    next hcond => simp at h
  next hpre =>
    split at h
    next hcond =>
      rw [Option.some_inj] at h
      subst h
      exact ⟨rfl, rfl, endsSlash_stripBase bp p hp (stripTrailSlash_ne_nil hcond)⟩
    next hcond => simp at h

theorem davName_head {dn : Str} (hseg : '/' ∉ dn) : dn.head? ≠ some '/' := by
  intro hh
  exact hseg (List.mem_of_mem_head? (Option.mem_def.mpr hh))

theorem davName_getLast {dn : Str} (hseg : '/' ∉ dn) : dn.getLast? ≠ some '/' := by
  intro hh
  exact hseg (List.mem_of_getLast?_eq_some hh)

theorem getLast?_append_right_ne {l r : Str} (h : r ≠ []) :
    (l ++ r).getLast? = r.getLast? := by
  rw [List.getLast?_append]
  cases hr : r.getLast? with
  | none => exact absurd (List.getLast?_eq_none_iff.mp hr) h
  | some x => rfl

theorem davKey_head {dp dn : Str} (isDir : Bool) (hdp : dp.head? ≠ some '/')
    (hdn : dn.head? ≠ some '/') : (davKey dp isDir dn).head? ≠ some '/' := by
  unfold davKey
  split
  next h1 =>
    cases dp with
    | nil => exact absurd rfl h1.1
    | cons ch t =>
      simp only [List.cons_append, List.head?_cons] at hdp ⊢
      exact hdp
  next h1 =>
    split
    next h2 =>
      cases dp with
      | nil => exact absurd rfl h2.1
      | cons ch t =>
        simp only [List.cons_append, List.head?_cons] at hdp ⊢
        exact hdp
    next h2 => exact hdn

theorem davKey_endsSlash_dir {dp dn : Str} (hdp : dp ≠ []) :
    endsSlash (davKey dp true dn) = true := by
  unfold davKey
  rw [if_neg (by simp), if_pos ⟨hdp, rfl⟩]
  rw [endsSlash_true_iff]
  have hg : dp ++ dn ++ ['/'] = (dp ++ dn) ++ ['/'] := by
    simp [List.append_assoc]
  rw [hg, getLast?_append_right_ne (by simp)]
  rfl

theorem davKey_endsSlash_file {dp dn : Str} (hdn : dn ≠ [])
    (hlast : dn.getLast? ≠ some '/') : endsSlash (davKey dp false dn) = false := by
  unfold davKey
  by_cases hdp : dp ≠ []
  · rw [if_pos ⟨hdp, rfl⟩, endsSlash_false_iff, getLast?_append_right_ne hdn]
    exact hlast
  · rw [if_neg (by simp [hdp]), if_neg (by simp), endsSlash_false_iff]
    exact hlast

theorem mkDavObject_spec {bp fp dp : Str} {e : DavEntry} {o : S3Object}
    (h : mkDavObject bp fp dp e = some o)
    (hseg : '/' ∉ davDisplayName bp e) (hdp : dp.head? ≠ some '/') :
    o.key.head? ≠ some '/' ∧
      ((dp ≠ [] ∨ o.isDirectory = false) →
        (o.isDirectory = true ↔ endsSlash o.key = true)) := by
  simp only [mkDavObject] at h
  split at h
  next => simp at h
  next hname =>
    split at h
    next => simp at h
    next hself =>
      rw [Option.some_inj] at h
      subst h
      constructor
      · show (davKey dp e.isCollection (davDisplayName bp e)).head? ≠ some '/'
        exact davKey_head e.isCollection hdp (davName_head hseg)
      · intro hor
        show e.isCollection = true
          ↔ endsSlash (davKey dp e.isCollection (davDisplayName bp e)) = true
        cases hcol : e.isCollection with
        | false =>
          rw [davKey_endsSlash_file hname (davName_getLast hseg)]
        | true =>
          have hdpne : dp ≠ [] := by
            rcases hor with h0 | h0
            · exact h0
            · have h0x : e.isCollection = false := h0
              rw [hcol] at h0x
              simp at h0x
          rw [davKey_endsSlash_dir hdpne]

/-- C7 amended: for entries produced by the S3 list parser from a
well-formed response (keys and common prefixes free of leading slashes and
base-path anomalies, common prefixes ending in the '/' delimiter) the key
never has a leading '/' and ends in '/' exactly when the entry is a
directory; for entries produced by the WebDAV parser (display names being
path segments, listing prefix free of a leading slash) the key never has a
leading '/', and the trailing-slash characterisation holds for every entry
except directories listed at the root (empty listing prefix), whose keys
carry no trailing slash. -/
theorem listKey_invariant_amended :
    (∀ (rawBasePath fullPrefix : Str) (xml : S3ListXml) (o : S3Object),
      o ∈ (parseListObjectsResponse rawBasePath fullPrefix xml).objects →
      (∀ c ∈ xml.contents, s3KeyWellFormed (trimSlashes rawBasePath) c.key) →
      (∀ p ∈ xml.commonPrefixes,
        s3KeyWellFormed (trimSlashes rawBasePath) p ∧ endsSlash p = true) →
      o.key.head? ≠ some '/' ∧ (o.isDirectory = true ↔ endsSlash o.key = true)) ∧
    (∀ (rawBasePath fullPrefix displayPrefix : Str) (entries : List DavEntry)
        (o : S3Object),
      o ∈ (parsePropfindResponse rawBasePath fullPrefix displayPrefix entries).objects →
      (∀ e ∈ entries, '/' ∉ davDisplayName (trimSlashes rawBasePath) e) →
      displayPrefix.head? ≠ some '/' →
      o.key.head? ≠ some '/' ∧
        ((displayPrefix ≠ [] ∨ o.isDirectory = false) →
          (o.isDirectory = true ↔ endsSlash o.key = true))) := by
  constructor
  · intro rawBasePath fullPrefix xml o hmem hkeys hprefs
    have hmem2 : o ∈ (xml.contents.filterMap
          (mkFileObject (trimSlashes rawBasePath) fullPrefix))
        ++ (xml.commonPrefixes.filterMap
          (mkDirObject (trimSlashes rawBasePath) fullPrefix)) :=
      ((List.mergeSort_perm _ objectCmpLe).mem_iff).mp hmem
    rcases List.mem_append.mp hmem2 with hf | hd
    · obtain ⟨c, hc, hco⟩ := List.mem_filterMap.mp hf
      obtain ⟨hdir, hkey, hslash⟩ := mkFileObject_spec hco
      refine ⟨?_, ?_⟩
      · rw [hkey]
        exact stripBase_head _ _ (hkeys c hc)
      · rw [hdir, hslash]
    · obtain ⟨p, hp, hpo⟩ := List.mem_filterMap.mp hd
      obtain ⟨hdir, hkey, hslash⟩ := mkDirObject_spec hpo (hprefs p hp).2
      refine ⟨?_, ?_⟩
      · rw [hkey]
        exact stripBase_head _ _ (hprefs p hp).1
      · rw [hdir, hslash]
  · intro rawBasePath fullPrefix displayPrefix entries o hmem hseg hdp
    have hmem2 : o ∈ entries.filterMap
        (mkDavObject (trimSlashes rawBasePath) fullPrefix displayPrefix) :=
      ((List.mergeSort_perm _ objectCmpLe).mem_iff).mp hmem
    obtain ⟨e, he, heo⟩ := List.mem_filterMap.mp hmem2
    exact mkDavObject_spec heo (hseg e he) hdp

/-- C7 counterexample: the WebDAV parser at the root (empty listing
prefix) produces a directory entry whose key has no trailing slash,
violating the claimed invariant that directory keys always end in '/'. -/
theorem listKey_invariant_counterexample :
    (⟨str "photos", str "photos", 0, [], true, none⟩ : S3Object)
      ∈ (parsePropfindResponse [] [] []
          [⟨str "/photos/", some (str "photos"), true, 0, []⟩]).objects ∧
    (S3Object.mk (str "photos") (str "photos") 0 [] true none).isDirectory = true ∧
    endsSlash (S3Object.mk (str "photos") (str "photos") 0 [] true none).key = false := by
  refine ⟨((List.mergeSort_perm _ objectCmpLe).mem_iff).mpr (by decide),
    by decide, by decide⟩

/-- C7 witness: the amended invariant applied to a concrete S3 directory
entry (key "docs/") and a concrete WebDAV directory entry under a
non-empty prefix (key "sub/d/"). -/
theorem listKey_invariant_amended_witness :
    ((S3Object.mk (str "docs/") (str "docs") 0 [] true none).key.head? ≠ some '/' ∧
      ((S3Object.mk (str "docs/") (str "docs") 0 [] true none).isDirectory = true ↔
        endsSlash (S3Object.mk (str "docs/") (str "docs") 0 [] true none).key = true)) ∧
    ((S3Object.mk (str "sub/d/") (str "d") 0 [] true none).key.head? ≠ some '/' ∧
      ((str "sub/" ≠ ([] : Str) ∨
          (S3Object.mk (str "sub/d/") (str "d") 0 [] true none).isDirectory = false) →
        ((S3Object.mk (str "sub/d/") (str "d") 0 [] true none).isDirectory = true ↔
          endsSlash (S3Object.mk (str "sub/d/") (str "d") 0 [] true none).key = true))) := by
  constructor
  · exact listKey_invariant_amended.1 [] [] ⟨[], [str "docs/"], false, none⟩ _
      (((List.mergeSort_perm _ objectCmpLe).mem_iff).mpr (by decide))
      (by intro c hc; simp at hc) (by decide)
  · exact listKey_invariant_amended.2 [] (str "sub/") (str "sub/")
      [⟨str "/sub/d/", some (str "d"), true, 0, []⟩] _
      (((List.mergeSort_perm _ objectCmpLe).mem_iff).mpr (by decide))
      (by decide) (by decide)
